import Mathlib

/-!
# A verification development for `ansibullbot/historywrapper.py`

This file gives a shallow embedding of the `HistoryWrapper` class of
`src/ansibullbot/historywrapper.py` and proves/refutes the frozen claims about
it.  Python dictionaries holding events are modelled by the `Event` structure
(optional fields model optional dictionary keys), Python `datetime` values by
the `CreatedAt` inductive (which also allows a non-datetime payload so that the
`_dump_cache` type check is expressible), and functions that can raise by
`Except Unit`-valued functions.  Python's stable `sorted(..., key=itemgetter
('created_at'))` is modelled by a stable insertion sort (`sortEvents`); a
stable sort by a key is unique as a function, so any faithful model agrees
with it.
-/

/-! ## Python string primitives

Character-list models of the Python `str` operations used by the source:
`needle in hay` (substring test), `str.strip()`, `str.lower()`,
`str.split('\n')` and whitespace `str.split()`. -/

/-- Test `charsPre n h` : `n` is a prefix of `h` (over characters). -/
def charsPre : List Char → List Char → Bool
  | [], _ => true
  | _ :: _, [] => false
  | a :: as, b :: bs => a == b && charsPre as bs

/-- Test `charsSub n h` : `n` occurs as a contiguous substring of `h`.  Models the
Python expression `n in h` on strings. -/
def charsSub (needle : List Char) : List Char → Bool
  | [] => charsPre needle []
  | b :: bs => charsPre needle (b :: bs) || charsSub needle bs

/-- Python `needle in hay` on strings: substring containment. -/
def strIn (needle hay : String) : Bool :=
  charsSub needle.toList hay.toList

/-- Python `s.strip()`: remove leading and trailing whitespace. -/
def pyStrip (s : String) : String :=
  String.mk (((s.toList.dropWhile Char.isWhitespace).reverse.dropWhile
    Char.isWhitespace).reverse)

/-- Python `s.lower()`. -/
def pyLower (s : String) : String :=
  String.mk (s.toList.map Char.toLower)

/-- Helper for `pyLines`: split a character list at newline characters. -/
def linesAux : List Char → List Char → List (List Char)
  | [], acc => [acc.reverse]
  | c :: rest, acc =>
    if c == '\n' then acc.reverse :: linesAux rest [] else linesAux rest (c :: acc)

/-- Python `s.split('\n')`. -/
def pyLines (s : String) : List String :=
  (linesAux s.toList []).map String.mk

/-- Helper for `pySplitWs`: tokenize at whitespace runs, discarding empties. -/
def wsTokensAux : List Char → List Char → List (List Char)
  | [], cur => if cur.isEmpty then [] else [cur.reverse]
  | c :: rest, cur =>
    if c.isWhitespace then
      (if cur.isEmpty then wsTokensAux rest [] else cur.reverse :: wsTokensAux rest [])
    else wsTokensAux rest (c :: cur)

/-- Python `s.split()` with no argument: whitespace-delimited tokens. -/
def pySplitWs (s : String) : List String :=
  (wsTokensAux s.toList []).map String.mk

/-! ## Data model -/

/-- The value found under an event's `created_at` key.  `dt time aware`
models a `datetime.datetime` (`time` is the timestamp used for ordering;
`aware` records whether `tzinfo` is set); `nonDT` models any non-`datetime`
value (what `_dump_cache`'s `isinstance` check is looking for). -/
inductive CreatedAt where
  | dt (time : Int) (aware : Bool)
  | nonDT (raw : String)
deriving DecidableEq, Repr

/-- Models `isinstance(x, datetime.datetime)`. -/
def CreatedAt.isDT : CreatedAt → Bool
  | .dt _ _ => true
  | .nonDT _ => false

/-- A timezone-aware `datetime`. -/
def CreatedAt.isAware : CreatedAt → Bool
  | .dt _ a => a
  | .nonDT _ => false

/-- The sort key used by `sorted(self.history, key=itemgetter('created_at'))`;
for `datetime` values this is the underlying instant. -/
def caKey : CreatedAt → Int
  | .dt t _ => t
  | .nonDT _ => 0

/-- An event dictionary.  Optional fields model optional dictionary keys;
`body` is doubly optional because the `body` key, when present (as on review
events), may hold Python `None`: `none` is a missing key, `some none` a key
holding `None`, `some (some s)` a key holding the string `s`. -/
structure Event where
  event : String := ""
  actor : String := ""
  created_at : CreatedAt := CreatedAt.dt 0 true
  label : Option String := none
  body : Option (Option String) := none
  id : String := ""
  commit_id : Option String := none
  message : String := ""
deriving DecidableEq, Repr

/-- Comparison of two events by the `created_at` sort key. -/
def evLE (a b : Event) : Prop :=
  caKey a.created_at ≤ caKey b.created_at

/-- Stable insertion of an event into a list: `e` goes before the first
element whose key is `≥` its own, hence before ties inserted earlier. -/
def insertEv (e : Event) : List Event → List Event
  | [] => [e]
  | f :: rest =>
    if caKey e.created_at ≤ caKey f.created_at then e :: f :: rest
    else f :: insertEv e rest

/-- Models `sorted(history, key=itemgetter('created_at'))`: Python's `sorted` is a
stable sort by the key; a stable sort is unique as a function of the input
list, and this stable insertion sort computes it. -/
def sortEvents : List Event → List Event
  | [] => []
  | e :: rest => insertEv e (sortEvents rest)

/-- Constant `HistoryWrapper.SCHEMA_VERSION = 1.2`, as the exact rational 6/5. -/
def SCHEMA_VERSION : ℚ := mkRat 6 5

/-! ## Cache store -/

/-- The snapshot dictionary written by `_dump_cache`; each field is optional
because `validate_cache` probes for missing keys. -/
structure CacheDict where
  version : Option ℚ := none
  updated_at : Option Int := none
  history : Option (List Event) := none
deriving DecidableEq

/-- Any value `pickle.load` can hand back: either some dictionary or a
non-dictionary value (rejected by the `isinstance(cache, dict)` check). -/
inductive CacheData where
  | nonDict
  | dict (d : CacheDict)
deriving DecidableEq

/-- What sits on disk at `self.cachefile`. -/
inductive StoredBlob where
  | absent
  | corrupt (why : String)
  | good (c : CacheData)

/-- Models `HistoryWrapper._load_cache`: a missing file or a failed unpickle yields
`None`; otherwise the stored data is returned as is. -/
def load_cache : StoredBlob → Option CacheData
  | .absent => none
  | .corrupt _ => none
  | .good c => some c

/-- Models `HistoryWrapper.validate_cache(cache)` with `self.labels = labels` and
`self.last_updated = last_updated`. -/
def validate_cache (labels : List String) (last_updated : Int)
    (cache : Option CacheData) : Bool :=
  match cache with
  | none => false
  | some CacheData.nonDict => false
  | some (CacheData.dict d) =>
    match d.history, d.updated_at with
    | some history, some updated_at =>
      match d.version with
      | none => false
      | some v =>
        if v = 0 then false
        else if v < SCHEMA_VERSION then false
        else if updated_at < last_updated then false
        else if history.length <
            (history.filter (fun x => x.event == "commented")).length + labels.length then
          false
        else if labels.contains "needs_info" &&
            (history.filter
              (fun x => x.event == "labeled" && x.label == some "needs_info")).isEmpty then
          false
        else true
    | _, _ => false

/-- Models `HistoryWrapper._dump_cache`: raises `AssertionError` (modelled as
`Except.error ()`) when some event's `created_at` is not a `datetime`
instance; otherwise persists `{version, updated_at, history}`. -/
def dump_cache (history : List Event) (last_updated : Int) : Except Unit CacheDict :=
  if history.any (fun x => !x.created_at.isDT) then Except.error ()
  else Except.ok
    { version := some SCHEMA_VERSION
      updated_at := some last_updated
      history := some history }

/-! ## Event normalizer and timeline merger -/

/-- Modelled from the spec: `strip_time_safely` lives in
`ansibullbot.utils.timetools`, outside the sources under study.  Per §4.1 of
the spec it parses the review submission timestamp into a (naive) datetime and
never raises, so we abstract it as an arbitrary total function from strings to
datetime instants. -/
def strip_time_safely (s : String) : Int :=
  (s.length : Int)

/-- A raw commit record as consumed by `merge_commits`:
`committer_login` is `getattr(xc.committer, 'login', ...)` when the lookup
succeeds, and `committer_str` is the fallback `str(xc.committer)`. -/
structure RawCommit where
  sha : String := ""
  committer_login : Option String := none
  committer_str : String := ""
  commit_date : Int := 0
  commit_message : String := ""
deriving DecidableEq, Repr

/-- The event built for one commit inside `merge_commits`:
`created_at = xc.commit.committer.date.replace(tzinfo=utc)`. -/
def commitEvent (c : RawCommit) : Event :=
  { id := c.sha
    actor := c.committer_login.getD c.committer_str
    created_at := CreatedAt.dt c.commit_date true
    event := "committed"
    message := c.commit_message }

/-- Models `HistoryWrapper.merge_commits`: append one event per commit, then
re-sort. -/
def merge_commits (history : List Event) (commits : List RawCommit) : List Event :=
  sortEvents (history ++ commits.map commitEvent)

/-- A raw review record as consumed by `merge_reviews`.  `user` is the
author's login, `none` for ghost/deleted accounts (`review.get('user') is
None`); `commit_id := none` models a record with no `commit_id` key; `body`
is `review.get('body')`. -/
structure RawReview where
  user : Option String := none
  state : String := ""
  submitted_at : String := ""
  id : String := ""
  commit_id : Option String := none
  body : Option String := none
deriving DecidableEq, Repr

/-- The `state` → `event` dispatch of `merge_reviews` (the four recognized
non-pending states). -/
def reviewKind (state : String) : Option String :=
  if state == "COMMENTED" then some "review_comment"
  else if state == "CHANGES_REQUESTED" then some "review_changes_requested"
  else if state == "APPROVED" then some "review_approved"
  else if state == "DISMISSED" then some "review_dismissed"
  else none

/-- The five state strings `merge_reviews` recognizes (including `PENDING`,
which is skipped without logging). -/
def knownReviewState (s : String) : Bool :=
  s == "COMMENTED" || s == "CHANGES_REQUESTED" || s == "APPROVED" ||
    s == "DISMISSED" || s == "PENDING"

/-- A review that reaches the `else: logging.error(...)` branch. -/
def reviewLogged (r : RawReview) : Bool :=
  r.user.isSome && !knownReviewState r.state

/-- The event a review contributes, if any: `none` for ghost users, pending
reviews and unrecognized states. -/
def reviewEvent (r : RawReview) : Option Event :=
  match r.user with
  | none => none
  | some login =>
    match reviewKind r.state with
    | none => none
    | some kind =>
      some { event := kind
             id := r.id
             actor := login
             created_at := CreatedAt.dt (strip_time_safely r.submitted_at) true
             commit_id := r.commit_id
             body := some r.body }

/-- One iteration of the `for review in reviews` loop of `merge_reviews`,
carrying the history being appended to and the error log. -/
def mergeReviewsStep (acc : List Event × List String) (r : RawReview) :
    List Event × List String :=
  match r.user with
  | none => acc
  | some login =>
    match reviewKind r.state with
    | some kind =>
      (acc.1 ++ [{ event := kind
                   id := r.id
                   actor := login
                   created_at := CreatedAt.dt (strip_time_safely r.submitted_at) true
                   commit_id := r.commit_id
                   body := some r.body }], acc.2)
    | none =>
      if r.state == "PENDING" then acc
      else (acc.1, acc.2 ++ ["unknown review state " ++ r.state])

/-- Models `HistoryWrapper.merge_reviews`: the loop above followed by a re-sort;
the second component collects the `logging.error` messages it emitted. -/
def merge_reviews (history : List Event) (reviews : List RawReview) :
    List Event × List String :=
  let res := reviews.foldl mergeReviewsStep (history, [])
  (sortEvents res.1, res.2)

/-- One merge call on the in-memory timeline. -/
inductive MergeOp where
  | commits (cs : List RawCommit)
  | reviews (rs : List RawReview)

/-- Apply one merge call to the timeline. -/
def applyMerge (h : List Event) : MergeOp → List Event
  | .commits cs => merge_commits h cs
  | .reviews rs => (merge_reviews h rs).1

/-- A finite sequence of merge calls. -/
def runMerges (h : List Event) (ops : List MergeOp) : List Event :=
  ops.foldl applyMerge h

/-- The events a merge call appends before re-sorting. -/
def newEventsOf : MergeOp → List Event
  | .commits cs => cs.map commitEvent
  | .reviews rs => rs.filterMap reviewEvent

/-- All events appended by a sequence of merge calls, in insertion order. -/
def allNewEvents : List MergeOp → List Event
  | [] => []
  | op :: ops => newEventsOf op ++ allNewEvents ops

/-! ## Query engine -/

/-- The `actor` argument of `_find_events_by_actor`.  `str` is a single
string: Python strings are `collections.abc.Sequence`s, so the function's
`actor = [actor]` wrapping does **not** fire on them and the membership test
`event['actor'] in actor` degenerates to a substring test. -/
inductive ActorArg where
  | noFilter
  | str (s : String)
  | list (l : List String)
deriving DecidableEq, Repr

/-- The per-event selection test of `_find_events_by_actor`:
`actor is None` matches everything, a string runs Python's substring `in`,
a list runs membership. -/
def actorSelects : ActorArg → String → Bool
  | .noFilter, _ => true
  | .str s, a => strIn a s
  | .list l, a => l.contains a

/-- The scan loop of `_find_events_by_actor` (`acc` holds the matches found
so far, in reverse).  The `maxcount` break is tested after every event whose
kind matched, exactly as in the source. -/
def findLoop (eventname : String) (actor : ActorArg) (maxcount : Nat) :
    List Event → List Event → List Event
  | acc, [] => acc.reverse
  | acc, e :: rest =>
    if e.event == eventname || eventname == "" then
      let acc' := if actorSelects actor e.actor then e :: acc else acc
      if acc'.length == maxcount then acc'.reverse
      else findLoop eventname actor maxcount acc' rest
    else findLoop eventname actor maxcount acc rest

/-- Models `HistoryWrapper._find_events_by_actor(eventname, actor, maxcount)`. -/
def find_events_by_actor (eventname : String) (actor : ActorArg) (maxcount : Nat)
    (history : List Event) : List Event :=
  findLoop eventname actor maxcount [] history

/-- The list comprehension of `search_user_comments`:
`[x['body'] for x in matching_events if searchterm in x['body'].lower()]`.
An event whose `body` key is missing or holds `None` makes the subscript or
`.lower()` raise, modelled by `Except.error ()`. -/
def searchBodiesLoop (searchterm : String) : List Event → Except Unit (List String)
  | [] => Except.ok []
  | e :: rest =>
    match e.body with
    | some (some b) =>
      match searchBodiesLoop searchterm rest with
      | Except.error u => Except.error u
      | Except.ok out =>
        if strIn searchterm (pyLower b) then Except.ok (b :: out) else Except.ok out
    | _ => Except.error ()

/-- Models `HistoryWrapper.search_user_comments(username, searchterm)`. -/
def search_user_comments (username searchterm : String) (history : List Event) :
    Except Unit (List String) :=
  searchBodiesLoop searchterm
    (find_events_by_actor "commented" (ActorArg.str username) 999 history)

/-- The `username` argument of `last_comment`, which tests
`type(username) == list` and otherwise compares with `==`. -/
inductive UserArg where
  | str (s : String)
  | list (l : List String)
deriving DecidableEq, Repr

/-- The actor test of `last_comment`. -/
def userSelects : UserArg → String → Bool
  | .str s, a => a == s
  | .list l, a => l.contains a

/-- Python truthiness of the `last_comment` variable: `None` and `''` are
falsy. -/
def truthyOpt : Option String → Bool
  | none => false
  | some s => !(s == "")

/-- The `for event in reversed(self.history)` loop of `last_comment`: `st` is
the current value of the `last_comment` variable; the loop breaks as soon as
it is truthy, and a matching comment without a `body` key raises. -/
def lastCommentLoop (username : UserArg) :
    Option String → List Event → Except Unit (Option String)
  | st, [] => Except.ok st
  | st, e :: rest =>
    if e.event == "commented" && userSelects username e.actor then
      match e.body with
      | none => Except.error ()
      | some v =>
        if truthyOpt v then Except.ok v else lastCommentLoop username v rest
    else
      if truthyOpt st then Except.ok st else lastCommentLoop username st rest

/-- Models `HistoryWrapper.last_comment(username)`. -/
def last_comment (username : UserArg) (history : List Event) :
    Except Unit (Option String) :=
  lastCommentLoop username none history.reverse

/-- The scan loop of `command_status`: events without a `body` key are
skipped; a `body` key holding `None` makes `.strip()` raise. -/
def commandLoop (command : String) :
    Option Bool → List Event → Except Unit (Option Bool)
  | st, [] => Except.ok st
  | st, e :: rest =>
    match e.body with
    | none => commandLoop command st rest
    | some none => Except.error ()
    | some (some b) =>
      if pyStrip b == command then commandLoop command (some true) rest
      else if pyStrip b == "!" ++ command then commandLoop command (some false) rest
      else commandLoop command st rest

/-- Models `HistoryWrapper.command_status(command)`. -/
def command_status (command : String) (history : List Event) :
    Except Unit (Option Bool) :=
  commandLoop command none history

/-- The `'boilerplate:'` marker searched for by `get_boilerplate_comments`. -/
def bpMarker : String := "boilerplate:"

/-- The name extraction of `get_boilerplate_comments`:
`lines = [x for x in body.split('\n') if x.strip() and 'boilerplate:' in x]`
then `lines[0].split()[2]`; `none` when either subscript would raise
`IndexError`. -/
def bpExtract (b : String) : Option String :=
  (((pyLines b).filter
      (fun x => !(pyStrip x == "") && strIn bpMarker x)).head?).bind
    (fun line => (pySplitWs line)[2]?)

/-- One extracted boilerplate record (`bpc` in the source): the date is kept
when `dates` was requested and the full body when `content` was. -/
structure Boilerplate where
  date : Option CreatedAt := none
  bp : String := ""
  body : Option String := none
deriving DecidableEq, Repr

/-- The extraction loop of `get_boilerplate_comments` over the bot comments:
a falsy `body` (missing key, `None`, or empty string) is skipped, a body
without the marker is skipped, and a marker body whose extraction hits an
out-of-range index raises. -/
def bpLoop (dates content : Bool) : List Event → Except Unit (List Boilerplate)
  | [] => Except.ok []
  | e :: rest =>
    match e.body with
    | some (some b) =>
      if !(b == "") then
        if strIn bpMarker b then
          match bpExtract b with
          | none => Except.error ()
          | some name =>
            match bpLoop dates content rest with
            | Except.error u => Except.error u
            | Except.ok out =>
              Except.ok ({ date := if dates then some e.created_at else none
                           bp := name
                           body := if content then some b else none } :: out)
        else bpLoop dates content rest
      else bpLoop dates content rest
    | _ => bpLoop dates content rest

/-- Models `HistoryWrapper.get_boilerplate_comments(dates, content)`; `botNames`
stands for the configured `C.DEFAULT_BOT_NAMES` list. -/
def get_boilerplate_comments (dates content : Bool) (botNames : List String)
    (history : List Event) : Except Unit (List Boilerplate) :=
  bpLoop dates content
    (find_events_by_actor "commented" (ActorArg.list botNames) 999 history)

/-- Whether an `Except`-valued computation returned normally. -/
def exOk {α : Type} : Except Unit α → Bool
  | Except.ok _ => true
  | Except.error _ => false

/-- A bot comment on which the boilerplate name extraction would raise:
a truthy string body containing the marker whose first non-blank marker line
has fewer than three whitespace tokens. -/
def badBoilerplate (e : Event) : Bool :=
  match e.body with
  | some (some b) => !(b == "") && strIn bpMarker b && (bpExtract b).isNone
  | _ => false

example : strIn "cat" "octocat" = true := by decide
example : strIn "octo" "cat" = false := by decide
example : pyStrip " shipit " = "shipit" := by decide
example : pyLower "SHIPIT" = "shipit" := by decide
example : pySplitWs " a  bc d " = ["a", "bc", "d"] := by decide
example : pyLines "a\nb" = ["a", "b"] := by decide
example : validate_cache [] 0 (some (CacheData.dict
    { version := some SCHEMA_VERSION, updated_at := some 0, history := some [] })) = true := by
  decide
example : bpExtract "boilerplate: x" = none := by decide
example : bpExtract "hi\n botty boilerplate: notify_me extra" = some "notify_me" := by decide

/-! ## Claims -/

/-- C1.  `validate_cache` returns `true` iff all of: the snapshot exists
and is a dictionary with `history` and `updated_at` keys; its `version` is
present, non-zero and at least `SCHEMA_VERSION`; its `updated_at` is at least
`last_updated`; the history length is at least the number of `commented`
events plus the number of current labels; and, when `needs_info` is a current
label, some `labeled` event for `needs_info` exists in the history. -/
theorem validate_cache_characterization (labels : List String) (last_updated : Int)
    (cache : Option CacheData) :
    validate_cache labels last_updated cache = true ↔
      ∃ (v : ℚ) (u : Int) (hist : List Event),
        cache = some (CacheData.dict
          { version := some v, updated_at := some u, history := some hist }) ∧
        v ≠ 0 ∧ SCHEMA_VERSION ≤ v ∧ last_updated ≤ u ∧
        (hist.filter (fun x => x.event == "commented")).length + labels.length ≤
          hist.length ∧
        ("needs_info" ∉ labels ∨
          ∃ e, e ∈ hist ∧ e.event = "labeled" ∧ e.label = some "needs_info") := by
  cases cache with
  | none => simp [validate_cache]
  | some cd =>
    cases cd with
    | nonDict => simp [validate_cache]
    | dict d =>
      obtain ⟨ver, upd, hist0⟩ := d
      cases hist0 with
      | none =>
        cases upd <;> simp [validate_cache]
      | some history =>
        cases upd with
        | none => simp [validate_cache]
        | some updated_at =>
          cases ver with
          | none => simp [validate_cache]
          | some v0 =>
            simp only [validate_cache]
            constructor
            · intro hv
              split_ifs at hv with h0 h1 h2 h3 h4
              refine ⟨v0, updated_at, history, rfl, h0, not_lt.mp h1,
                not_lt.mp h2, Nat.not_lt.mp h3, ?_⟩
              rw [Bool.and_eq_true, not_and_or] at h4
              rcases h4 with h4 | h4
              · exact Or.inl (by simpa using h4)
              · refine Or.inr ?_
                rw [Bool.not_eq_true, List.isEmpty_eq_false_iff_exists_mem] at h4
                obtain ⟨e, he⟩ := h4
                rw [List.mem_filter, Bool.and_eq_true, beq_iff_eq, beq_iff_eq] at he
                exact ⟨e, he.1, he.2.1, he.2.2⟩
            · rintro ⟨v, u, hist, hc, h0, h1, h2, h3, h4⟩
              obtain ⟨rfl, rfl, rfl⟩ :
                  v0 = v ∧ updated_at = u ∧ history = hist := by
                simpa [CacheData.dict.injEq, CacheDict.mk.injEq] using hc
              split_ifs with g0 g1 g2 g3 g4
              · exact absurd g0 h0
              · exact absurd h1 (not_le.mpr g1)
              · exact absurd h2 (not_le.mpr g2)
              · exact absurd h3 (Nat.not_le.mpr g3)
              · rw [Bool.and_eq_true] at g4
                rcases h4 with h4 | ⟨e, he, hev, hla⟩
                · exact absurd (by simpa using g4.1) h4
                · have : e ∈ history.filter
                      (fun x => x.event == "labeled" && x.label == some "needs_info") := by
                    rw [List.mem_filter]
                    exact ⟨he, by simp [hev, hla]⟩
                  rw [List.isEmpty_iff] at g4
                  simp [g4.2] at this
              · rfl

/-- C3 counterexample.  A timeline whose single event carries a *naive*
(timezone-unaware) `datetime` is persisted by `_dump_cache` without any
error: the source only checks `isinstance(created_at, datetime.datetime)`,
which a naive datetime satisfies, so the claim that a naive timestamp is
never persisted is false. -/
theorem dump_cache_naive_persisted :
    dump_cache [{ event := "commented", actor := "u",
                  created_at := CreatedAt.dt 0 false }] 5 =
      Except.ok { version := some SCHEMA_VERSION, updated_at := some 5,
                  history := some [{ event := "commented", actor := "u",
                                     created_at := CreatedAt.dt 0 false }] } ∧
    ({ event := "commented", actor := "u",
       created_at := CreatedAt.dt 0 false : Event }).created_at.isAware = false :=
  ⟨rfl, rfl⟩

/-- C3 (amended).  `_dump_cache` raises its hard integrity error — and
persists nothing — iff some event's `created_at` is not a `datetime` value at
all; a naive datetime passes the check and the timeline is persisted. -/
theorem dump_cache_error_characterization (history : List Event) (last_updated : Int) :
    dump_cache history last_updated = Except.error () ↔
      ∃ e, e ∈ history ∧ e.created_at.isDT = false := by
  unfold dump_cache
  by_cases hany : history.any (fun x => !x.created_at.isDT) = true
  · rw [if_pos hany]
    simp only [true_iff, List.any_eq_true] at *
    obtain ⟨e, he, hb⟩ := hany
    exact ⟨e, he, by simpa using hb⟩
  · rw [if_neg hany]
    simp only [List.any_eq_true, not_exists, not_and] at hany
    constructor
    · intro h
      exact absurd h (by simp)
    · rintro ⟨e, he, hb⟩
      exact absurd (by simpa using hany e he) (by simp [hb])

/-- C4 counterexample.  Dumping the (vacuously valid) empty timeline with
one current label and reloading it yields a snapshot that *fails*
`validate_cache`: the completeness floor `len(history) >= commented + len
(labels)` rejects it, contradicting the claim that every valid timeline
round-trips to a validate-passing snapshot for every label set. -/
theorem roundtrip_validate_counterexample :
    dump_cache ([] : List Event) 0 =
      Except.ok { version := some SCHEMA_VERSION, updated_at := some 0,
                  history := some [] } ∧
    validate_cache ["bug"] 0
      (load_cache (StoredBlob.good (CacheData.dict
        { version := some SCHEMA_VERSION, updated_at := some 0,
          history := some [] }))) = false :=
  ⟨rfl, by decide⟩

/-! ## Stable sort lemmas -/

lemma mem_insertEv {a e : Event} {l : List Event} :
    a ∈ insertEv e l ↔ a = e ∨ a ∈ l := by
  induction l with
  | nil => simp [insertEv]
  | cons f rest ih =>
    simp only [insertEv]
    split
    · simp [List.mem_cons]
    · simp only [List.mem_cons, ih]
      tauto

lemma sorted_insertEv {e : Event} {l : List Event} (h : List.Sorted evLE l) :
    List.Sorted evLE (insertEv e l) := by
  induction l with
  | nil => simp [insertEv]
  | cons f rest ih =>
    rw [List.sorted_cons] at h
    simp only [insertEv]
    split
    next hle =>
      rw [List.sorted_cons]
      refine ⟨?_, List.sorted_cons.mpr h⟩
      intro b hb
      rcases List.mem_cons.mp hb with rfl | hb
      · exact hle
      · exact le_trans hle (h.1 b hb)
    next hle =>
      rw [List.sorted_cons]
      refine ⟨?_, ih h.2⟩
      intro b hb
      rcases mem_insertEv.mp hb with rfl | hb
      · exact le_of_not_le hle
      · exact h.1 b hb

lemma sorted_sortEvents (l : List Event) : List.Sorted evLE (sortEvents l) := by
  induction l with
  | nil => simp [sortEvents]
  | cons e rest ih => exact sorted_insertEv ih

/-- Stability of the insertion step: inserting `e` does not disturb the
relative order of the events sharing any fixed `created_at` key, and `e`
itself lands in front of its own key class. -/
lemma filter_insertEv (e : Event) (l : List Event) (t : Int) :
    (insertEv e l).filter (fun x => caKey x.created_at == t) =
      if caKey e.created_at == t then
        e :: l.filter (fun x => caKey x.created_at == t)
      else l.filter (fun x => caKey x.created_at == t) := by
  induction l with
  | nil =>
    by_cases hek : caKey e.created_at = t
    · have hb : (caKey e.created_at == t) = true := by rw [beq_iff_eq]; exact hek
      simp [insertEv, List.filter_cons, hb]
    · have hb : (caKey e.created_at == t) = false := by
        rw [beq_eq_false_iff_ne]; exact hek
      simp [insertEv, List.filter_cons, hb]
  | cons f rest ih =>
    simp only [insertEv]
    split
    next hle =>
      simp only [List.filter_cons]
    next hgt =>
      by_cases hek : caKey e.created_at = t
      · have hf : (caKey f.created_at == t) = false := by
          rw [beq_eq_false_iff_ne]
          intro hft
          exact hgt (le_of_eq (hek ▸ hft.symm ▸ rfl))
        simp only [List.filter_cons, hf, ih, hek, beq_self_eq_true, if_true,
          Bool.false_eq_true, if_false]
      · have he : (caKey e.created_at == t) = false := by
          rw [beq_eq_false_iff_ne]; exact hek
        simp only [List.filter_cons, ih, he, Bool.false_eq_true, if_false]

/-- Stability of `sortEvents`: each `created_at` equivalence class is kept in
its original (insertion) order. -/
lemma filter_sortEvents (l : List Event) (t : Int) :
    (sortEvents l).filter (fun x => caKey x.created_at == t) =
      l.filter (fun x => caKey x.created_at == t) := by
  induction l with
  | nil => rfl
  | cons e rest ih =>
    simp only [sortEvents, filter_insertEv, ih, List.filter_cons]

lemma filter_head_key_le {y : Event} {l : List Event}
    (h : List.Sorted evLE (y :: l)) (t : Int)
    (hne : (y :: l).filter (fun x => caKey x.created_at == t) ≠ []) :
    caKey y.created_at ≤ t := by
  obtain ⟨e, he⟩ := List.exists_mem_of_ne_nil _ hne
  rw [List.mem_filter, beq_iff_eq] at he
  rcases List.mem_cons.mp he.1 with rfl | hm
  · exact le_of_eq he.2
  · exact he.2 ▸ (List.sorted_cons.mp h).1 e hm

/-- A sorted-by-key list is determined by its key classes: two lists sorted by
`created_at` whose per-key filtrations agree are equal.  (This is the sense in
which a stable sort is unique as a function.) -/
lemma sorted_stable_unique : ∀ l₁ l₂ : List Event,
    List.Sorted evLE l₁ → List.Sorted evLE l₂ →
    (∀ t : Int, l₁.filter (fun x => caKey x.created_at == t) =
      l₂.filter (fun x => caKey x.created_at == t)) → l₁ = l₂ := by
  intro l₁
  induction l₁ with
  | nil =>
    intro l₂ _ _ hf
    cases l₂ with
    | nil => rfl
    | cons y t₂ =>
      have h := (hf (caKey y.created_at)).symm
      simp [List.filter_cons] at h
  | cons x t₁ ih =>
    intro l₂ h₁ h₂ hf
    cases l₂ with
    | nil =>
      have h := hf (caKey x.created_at)
      simp [List.filter_cons] at h
    | cons y t₂ =>
      have hxy : caKey x.created_at = caKey y.created_at := by
        have hle₁ : caKey y.created_at ≤ caKey x.created_at := by
          apply filter_head_key_le h₂
          rw [← hf (caKey x.created_at)]
          simp [List.filter_cons]
        have hle₂ : caKey x.created_at ≤ caKey y.created_at := by
          apply filter_head_key_le h₁
          rw [hf (caKey y.created_at)]
          simp [List.filter_cons]
        exact le_antisymm hle₂ hle₁
      have hyx : (caKey y.created_at == caKey x.created_at) = true := by
        rw [beq_iff_eq]; exact hxy.symm
      have hhead := hf (caKey x.created_at)
      simp only [List.filter_cons, beq_self_eq_true, if_true, hyx,
        List.cons.injEq] at hhead
      obtain ⟨rfl, htail⟩ := hhead
      congr 1
      apply ih t₂ (List.sorted_cons.mp h₁).2 (List.sorted_cons.mp h₂).2
      intro t
      by_cases ht : caKey x.created_at = t
      · exact ht ▸ htail
      · have hxf : (caKey x.created_at == t) = false := by
          rw [beq_eq_false_iff_ne]; exact ht
        have h := hf t
        simp only [List.filter_cons, hxf, Bool.false_eq_true, if_false] at h
        exact h

/-- Re-sorting an already stably sorted prefix is harmless: sorting
`sortEvents a ++ b` and sorting `a ++ b` agree. -/
lemma sortEvents_append_left (a b : List Event) :
    sortEvents (sortEvents a ++ b) = sortEvents (a ++ b) := by
  apply sorted_stable_unique _ _ (sorted_sortEvents _) (sorted_sortEvents _)
  intro t
  rw [filter_sortEvents, filter_sortEvents, List.filter_append, List.filter_append,
    filter_sortEvents]

/-! ## Merge lemmas -/

lemma knownReviewState_of_reviewKind {s k : String}
    (h : reviewKind s = some k) : knownReviewState s = true := by
  unfold reviewKind at h
  unfold knownReviewState
  split_ifs at h with h1 h2 h3 h4 <;> simp_all

lemma reviewKind_none_state {s : String} (h : reviewKind s = none) :
    (s == "COMMENTED") = false ∧ (s == "CHANGES_REQUESTED") = false ∧
    (s == "APPROVED") = false ∧ (s == "DISMISSED") = false := by
  unfold reviewKind at h
  split_ifs at h with h1 h2 h3 h4
  simp_all

/-- The review loop is a filter-map over the incoming reviews: it appends
exactly the events of the kept reviews (in order) and logs exactly the
reviews with a present user and an unrecognized state. -/
lemma mergeReviews_foldl (rs : List RawReview) :
    ∀ acc : List Event × List String,
      rs.foldl mergeReviewsStep acc =
        (acc.1 ++ rs.filterMap reviewEvent,
         acc.2 ++ (rs.filter reviewLogged).map
           (fun r => "unknown review state " ++ r.state)) := by
  induction rs with
  | nil => intro acc; simp
  | cons r rest ih =>
    intro acc
    rw [List.foldl_cons, ih]
    cases hu : r.user with
    | none =>
      simp [mergeReviewsStep, hu, reviewEvent, reviewLogged,
        List.filterMap_cons, List.filter_cons]
    | some login =>
      cases hk : reviewKind r.state with
      | some kind =>
        have hknown := knownReviewState_of_reviewKind hk
        simp [mergeReviewsStep, hu, hk, reviewEvent, reviewLogged, hknown,
          List.filterMap_cons, List.filter_cons]
      | none =>
        by_cases hp : r.state = "PENDING"
        · have hpb : (r.state == "PENDING") = true := by
            rw [beq_iff_eq]; exact hp
          have hlog : reviewLogged r = false := by
            simp [reviewLogged, knownReviewState, hpb]
          simp [mergeReviewsStep, hu, hk, hpb, reviewEvent, hlog,
            List.filterMap_cons, List.filter_cons]
        · obtain ⟨h1, h2, h3, h4⟩ := reviewKind_none_state hk
          have hp' : (r.state == "PENDING") = false := by
            rw [beq_eq_false_iff_ne]; exact hp
          have hlog : reviewLogged r = true := by
            simp [reviewLogged, knownReviewState, hu, h1, h2, h3, h4, hp']
          simp [mergeReviewsStep, hu, hk, hp', reviewEvent, hlog,
            List.filterMap_cons, List.filter_cons]

lemma merge_reviews_fst (h : List Event) (rs : List RawReview) :
    (merge_reviews h rs).1 = sortEvents (h ++ rs.filterMap reviewEvent) := by
  unfold merge_reviews
  rw [mergeReviews_foldl]

lemma merge_reviews_snd (h : List Event) (rs : List RawReview) :
    (merge_reviews h rs).2 =
      (rs.filter reviewLogged).map (fun r => "unknown review state " ++ r.state) := by
  unfold merge_reviews
  rw [mergeReviews_foldl]
  simp

lemma applyMerge_eq (h : List Event) (op : MergeOp) :
    applyMerge h op = sortEvents (h ++ newEventsOf op) := by
  cases op with
  | commits cs => rfl
  | reviews rs => exact merge_reviews_fst h rs

lemma runMerges_eq : ∀ (ops : List MergeOp) (init : List Event),
    runMerges (sortEvents init) ops = sortEvents (init ++ allNewEvents ops) := by
  intro ops
  induction ops with
  | nil =>
    intro init
    simp [runMerges, allNewEvents]
  | cons op rest ih =>
    intro init
    simp only [runMerges, List.foldl_cons]
    rw [show applyMerge (sortEvents init) op =
          sortEvents (sortEvents init ++ newEventsOf op) from applyMerge_eq _ _,
      sortEvents_append_left]
    have h2 := ih (init ++ newEventsOf op)
    simp only [runMerges] at h2
    rw [h2, List.append_assoc]
    rfl

set_option linter.unusedVariables false in
/-- C2.  Starting from any initial event list (sorted on construction, as
in `__init__`) and applying any finite sequence of `merge_commits` /
`merge_reviews` calls, the in-memory timeline equals the stable sort by
`created_at` of the initial events followed by all merged-in events in
insertion order — in particular it is non-decreasing by `created_at`, and
ties keep their relative insertion order (`sortEvents` is stable:
`filter_sortEvents`).  The hypothesis restricts to timelines satisfying the
data-model invariant (timezone-aware timestamps), where Python's `datetime`
comparison is total. -/
theorem timeline_merge_sorted_stable (init : List Event) (ops : List MergeOp)
    (hw : ∀ e ∈ init, e.created_at.isAware = true) :
    runMerges (sortEvents init) ops = sortEvents (init ++ allNewEvents ops) ∧
    List.Sorted evLE (runMerges (sortEvents init) ops) := by
  refine ⟨runMerges_eq ops init, ?_⟩
  rw [runMerges_eq ops init]
  exact sorted_sortEvents _

/-- Witness for C2 at a concrete timeline and merge sequence. -/
theorem timeline_merge_sorted_stable_witness :
    (∀ e ∈ [({ event := "commented", actor := "u",
               created_at := CreatedAt.dt 9 true,
               body := some (some "shipit") } : Event)],
        e.created_at.isAware = true) ∧
    (runMerges
        (sortEvents [{ event := "commented", actor := "u",
                       created_at := CreatedAt.dt 9 true,
                       body := some (some "shipit") }])
        [MergeOp.commits [{ sha := "c1", committer_str := "dev",
                            commit_date := 4, commit_message := "fix" }],
         MergeOp.reviews [{ user := some "rev", state := "APPROVED",
                            submitted_at := "t", id := "7" }]] =
      sortEvents
        ([{ event := "commented", actor := "u",
            created_at := CreatedAt.dt 9 true,
            body := some (some "shipit") }] ++
          allNewEvents
            [MergeOp.commits [{ sha := "c1", committer_str := "dev",
                                commit_date := 4, commit_message := "fix" }],
             MergeOp.reviews [{ user := some "rev", state := "APPROVED",
                                submitted_at := "t", id := "7" }]]) ∧
      List.Sorted evLE
        (runMerges
          (sortEvents [{ event := "commented", actor := "u",
                         created_at := CreatedAt.dt 9 true,
                         body := some (some "shipit") }])
          [MergeOp.commits [{ sha := "c1", committer_str := "dev",
                              commit_date := 4, commit_message := "fix" }],
           MergeOp.reviews [{ user := some "rev", state := "APPROVED",
                              submitted_at := "t", id := "7" }]])) :=
  ⟨by decide, timeline_merge_sorted_stable _ _ (by decide)⟩

/-- C6.  `merge_reviews` is total over arbitrary review records (never
raises on review content): it appends exactly one event per review that has a
present user and one of the four recognized non-pending states — with the
corresponding `review_*` kind and with `commit_id` copied (hence `None` when
the record has none) — silently skips ghost users and `PENDING` reviews, and
logs (without raising) exactly the reviews with a present user and an
unrecognized state string. -/
theorem merge_reviews_characterization (h : List Event) (rs : List RawReview) :
    (merge_reviews h rs).1 = sortEvents (h ++ rs.filterMap reviewEvent) ∧
    (merge_reviews h rs).2 =
      (rs.filter reviewLogged).map (fun r => "unknown review state " ++ r.state) ∧
    (∀ r : RawReview, (reviewEvent r).isSome =
      (r.user.isSome && (reviewKind r.state).isSome)) ∧
    (∀ r : RawReview, (reviewEvent r).map (fun e => e.event) =
      (if r.user.isSome then reviewKind r.state else none)) ∧
    (∀ r : RawReview, (reviewEvent r).map (fun e => e.commit_id) =
      (if r.user.isSome && (reviewKind r.state).isSome then some r.commit_id
       else none)) := by
  refine ⟨merge_reviews_fst h rs, merge_reviews_snd h rs, ?_, ?_, ?_⟩
  · intro r
    cases hu : r.user <;> cases hk : reviewKind r.state <;>
      simp [reviewEvent, hu, hk]
  · intro r
    cases hu : r.user <;> cases hk : reviewKind r.state <;>
      simp [reviewEvent, hu, hk]
  · intro r
    cases hu : r.user <;> cases hk : reviewKind r.state <;>
      simp [reviewEvent, hu, hk]

/-- C4 (amended).  For a timeline of timezone-aware events, dumping and
reloading yields a snapshot with the identical event sequence that passes
`validate_cache` *provided* the two heuristic guards hold for the label set in
force: the length floor `len(history) ≥ commented + len(labels)` and the
`needs_info` labeled-event guard (the counterexample
`roundtrip_validate_counterexample` shows they are not implied by dump). -/
theorem dump_load_validate_roundtrip (h : List Event) (labels : List String)
    (lu : Int)
    (hdt : ∀ e ∈ h, e.created_at.isAware = true)
    (hfloor : (h.filter (fun x => x.event == "commented")).length + labels.length ≤
      h.length)
    (hni : "needs_info" ∉ labels ∨
      ∃ e, e ∈ h ∧ e.event = "labeled" ∧ e.label = some "needs_info") :
    ∃ d : CacheDict, dump_cache h lu = Except.ok d ∧
      validate_cache labels lu (load_cache (StoredBlob.good (CacheData.dict d))) =
        true ∧
      d.history = some h := by
  have hno : h.any (fun x => !x.created_at.isDT) = false := by
    rw [List.any_eq_false]
    intro e he
    have haw := hdt e he
    cases hc : e.created_at with
    | dt t a => simp [CreatedAt.isDT]
    | nonDT s => rw [hc] at haw; simp [CreatedAt.isAware] at haw
  refine ⟨{ version := some SCHEMA_VERSION, updated_at := some lu,
            history := some h }, ?_, ?_, rfl⟩
  · unfold dump_cache
    rw [if_neg (by simp [hno])]
  · have hcond : (labels.contains "needs_info" &&
        (h.filter
          (fun x => x.event == "labeled" && x.label == some "needs_info")).isEmpty) =
          false := by
      rcases hni with hni | ⟨e, he, hev, hla⟩
      · have hc : labels.contains "needs_info" = false := by
          by_contra hc
          rw [Bool.not_eq_false] at hc
          exact hni (by simpa using hc)
        rw [hc, Bool.false_and]
      · have hmem : e ∈ h.filter
            (fun x => x.event == "labeled" && x.label == some "needs_info") := by
          rw [List.mem_filter]
          exact ⟨he, by simp [hev, hla]⟩
        have hie : (h.filter
            (fun x => x.event == "labeled" && x.label == some "needs_info")).isEmpty =
              false := by
          rw [List.isEmpty_eq_false_iff_exists_mem]
          exact ⟨e, hmem⟩
        rw [hie, Bool.and_false]
    show validate_cache labels lu (some (CacheData.dict _)) = true
    simp only [validate_cache]
    rw [if_neg (by decide : ¬ (SCHEMA_VERSION = 0)),
      if_neg (lt_irrefl SCHEMA_VERSION), if_neg (lt_irrefl lu),
      if_neg (Nat.not_lt.mpr hfloor)]
    rw [hcond]
    simp

/-- Witness for C4 (amended) at a one-event timeline. -/
theorem dump_load_validate_roundtrip_witness :
    (∀ e ∈ ([{ event := "labeled", actor := "b",
               created_at := CreatedAt.dt 3 true,
               label := some "needs_info" }] : List Event),
        e.created_at.isAware = true) ∧
    ((([{ event := "labeled", actor := "b", created_at := CreatedAt.dt 3 true,
          label := some "needs_info" }] : List Event).filter
        (fun x => x.event == "commented")).length + ["needs_info"].length ≤
      ([{ event := "labeled", actor := "b", created_at := CreatedAt.dt 3 true,
          label := some "needs_info" }] : List Event).length) ∧
    ("needs_info" ∉ ["needs_info"] ∨
      ∃ e, e ∈ ([{ event := "labeled", actor := "b",
                   created_at := CreatedAt.dt 3 true,
                   label := some "needs_info" }] : List Event) ∧
        e.event = "labeled" ∧ e.label = some "needs_info") ∧
    (∃ d : CacheDict,
      dump_cache [{ event := "labeled", actor := "b",
                    created_at := CreatedAt.dt 3 true,
                    label := some "needs_info" }] 7 = Except.ok d ∧
      validate_cache ["needs_info"] 7
        (load_cache (StoredBlob.good (CacheData.dict d))) = true ∧
      d.history = some [{ event := "labeled", actor := "b",
                          created_at := CreatedAt.dt 3 true,
                          label := some "needs_info" }]) :=
  ⟨by decide, by decide, by decide,
    dump_load_validate_roundtrip _ _ 7 (by decide) (by decide) (by decide)⟩

/-- C5 (code bug witness).  `_find_events_by_actor` with the single
identity string `"octocat"` selects an event whose actor is `"cat"`: the
string is a `collections.abc.Sequence`, so it is never wrapped into a list
and `event['actor'] in actor` runs Python's substring test rather than the
membership/equality test the spec describes. -/
theorem find_events_substring_actor :
    find_events_by_actor "commented" (ActorArg.str "octocat") 999
      [{ event := "commented", actor := "cat", created_at := CreatedAt.dt 1 true,
         body := some (some "hello") }] =
      [{ event := "commented", actor := "cat", created_at := CreatedAt.dt 1 true,
         body := some (some "hello") }] := by
  decide

/-! ## C7: command_status -/

/-- An event `command_status` reacts to: a string body whose stripped form
equals `command` or `'!' + command`. -/
def commandHit (command : String) (e : Event) : Bool :=
  match e.body with
  | some (some b) => pyStrip b == command || pyStrip b == "!" ++ command
  | _ => false

/-- The verdict an event contributes when it is a `commandHit`: `true` iff
its stripped body equals the bare command. -/
def commandVerdict (command : String) (e : Event) : Bool :=
  match e.body with
  | some (some b) => pyStrip b == command
  | _ => false

lemma commandLoop_eq (command : String) : ∀ (l : List Event) (st : Option Bool),
    (∀ e ∈ l, e.body ≠ some none) →
    commandLoop command st l =
      Except.ok (match (l.filter (commandHit command)).getLast? with
        | none => st
        | some e => some (commandVerdict command e)) := by
  intro l
  induction l with
  | nil => intro st _; rfl
  | cons e rest ih =>
    intro st hb
    have hbe := hb e (List.mem_cons_self e rest)
    have hbr : ∀ x ∈ rest, x.body ≠ some none :=
      fun x hx => hb x (List.mem_cons_of_mem e hx)
    cases hbody : e.body with
    | none =>
      have hhit : commandHit command e = false := by simp [commandHit, hbody]
      rw [show commandLoop command st (e :: rest) = commandLoop command st rest by
            simp [commandLoop, hbody],
        ih st hbr, List.filter_cons, hhit]
      simp
    | some v =>
      cases v with
      | none => exact absurd hbody hbe
      | some b =>
        by_cases h1 : pyStrip b == command
        · have hhit : commandHit command e = true := by simp [commandHit, hbody, h1]
          have hver : commandVerdict command e = true := by
            simp [commandVerdict, hbody, h1]
          rw [show commandLoop command st (e :: rest) =
                commandLoop command (some true) rest by
              simp [commandLoop, hbody, h1],
            ih (some true) hbr, List.filter_cons, hhit]
          simp only [if_true, List.getLast?_cons]
          cases hl : (rest.filter (commandHit command)).getLast? with
          | none => simp [hver]
          | some x => simp
        · by_cases h2 : pyStrip b == "!" ++ command
          · have hhit : commandHit command e = true := by
              simp [commandHit, hbody, h2]
            have hver : commandVerdict command e = false := by
              simp only [commandVerdict, hbody]
              exact (Bool.not_eq_true _).mp (by simpa using h1)
            rw [show commandLoop command st (e :: rest) =
                  commandLoop command (some false) rest by
                simp [commandLoop, hbody, h1, h2],
              ih (some false) hbr, List.filter_cons, hhit]
            simp only [if_true, List.getLast?_cons]
            cases hl : (rest.filter (commandHit command)).getLast? with
            | none => simp [hver]
            | some x => simp
          · have hhit : commandHit command e = false := by
              simp [commandHit, hbody, h1, h2]
            rw [show commandLoop command st (e :: rest) = commandLoop command st rest by
                  simp [commandLoop, hbody, h1, h2],
              ih st hbr, List.filter_cons, hhit]
            simp

/-- C7 counterexample.  `command_status` strips bodies before comparing:
on a history whose single event has body `" shipit "` (surrounding blanks,
equal to neither `"shipit"` nor `"!shipit"`), the claim predicts `None`, but
the code returns `True`. -/
theorem command_status_strip_counterexample :
    command_status "shipit"
      [{ event := "commented", actor := "u", created_at := CreatedAt.dt 1 true,
         body := some (some " shipit ") }] = Except.ok (some true) ∧
    (" shipit " == "shipit") = false ∧ (" shipit " == "!shipit") = false :=
  ⟨rfl, by decide, by decide⟩

/-- C7 (amended).  On any timeline whose `body` keys, when present, hold
strings (a present-but-`None` body would make `.strip()` raise),
`command_status c` scans every event carrying a body and returns the verdict
of the *last* event whose **stripped** body equals `c` or `'!' + c` —
`Some True` if it equals `c`, `Some False` if `'!' + c` — and `None` when no
stripped body ever matches; later occurrences always override earlier ones. -/
theorem command_status_last_write_wins (command : String) (h : List Event)
    (hb : ∀ e ∈ h, e.body ≠ some none) :
    command_status command h =
      Except.ok (((h.filter (commandHit command)).getLast?).map
        (fun e => commandVerdict command e)) := by
  unfold command_status
  rw [commandLoop_eq command h none hb]
  cases (h.filter (commandHit command)).getLast? <;> rfl

/-- Witness for C7 (amended): `"shipit"` then `"!shipit"` yields `False`. -/
theorem command_status_last_write_wins_witness :
    (∀ e ∈ ([{ event := "commented", actor := "u",
               created_at := CreatedAt.dt 1 true, body := some (some "shipit") },
             { event := "commented", actor := "v",
               created_at := CreatedAt.dt 2 true,
               body := some (some "!shipit") }] : List Event),
        e.body ≠ some none) ∧
    command_status "shipit"
      [{ event := "commented", actor := "u", created_at := CreatedAt.dt 1 true,
         body := some (some "shipit") },
       { event := "commented", actor := "v", created_at := CreatedAt.dt 2 true,
         body := some (some "!shipit") }] =
      Except.ok
        ((([{ event := "commented", actor := "u",
              created_at := CreatedAt.dt 1 true, body := some (some "shipit") },
            { event := "commented", actor := "v",
              created_at := CreatedAt.dt 2 true,
              body := some (some "!shipit") }] : List Event).filter
            (commandHit "shipit")).getLast?.map
          (fun e => commandVerdict "shipit" e)) :=
  ⟨by decide, command_status_last_write_wins "shipit" _ (by decide)⟩

/-! ## C8: search_user_comments -/

/-- The string payload of an event's `body` key, when the key is present and
holds a string. -/
def bodyStr (e : Event) : Option String :=
  match e.body with
  | some (some s) => some s
  | _ => none

/-- C8 counterexample.  The search term is *not* lowercased (only the
body is): searching for `"SHIPIT"` in a comment whose body is exactly
`"SHIPIT"` returns nothing, although the body does contain the term
case-insensitively — so the match does depend on the letter case of the
term, contradicting the claim. -/
theorem search_user_comments_case_counterexample :
    search_user_comments "u" "SHIPIT"
      [{ event := "commented", actor := "u", created_at := CreatedAt.dt 1 true,
         body := some (some "SHIPIT") }] = Except.ok [] ∧
    strIn (pyLower "SHIPIT") (pyLower "SHIPIT") = true :=
  ⟨rfl, by decide⟩

lemma searchBodiesLoop_eq (searchterm : String) : ∀ l : List Event,
    (∀ e ∈ l, (bodyStr e).isSome = true) →
    searchBodiesLoop searchterm l =
      Except.ok ((l.filterMap bodyStr).filter
        (fun b => strIn searchterm (pyLower b))) := by
  intro l
  induction l with
  | nil => intro _; rfl
  | cons e rest ih =>
    intro hb
    have hbe := hb e (List.mem_cons_self e rest)
    have hbr : ∀ x ∈ rest, (bodyStr x).isSome = true :=
      fun x hx => hb x (List.mem_cons_of_mem e hx)
    cases hbody : e.body with
    | none => rw [bodyStr, hbody] at hbe; simp at hbe
    | some v =>
      cases v with
      | none => rw [bodyStr, hbody] at hbe; simp at hbe
      | some s =>
        have hbs : bodyStr e = some s := by rw [bodyStr, hbody]
        rw [show searchBodiesLoop searchterm (e :: rest) =
              match searchBodiesLoop searchterm rest with
              | Except.error u => Except.error u
              | Except.ok out =>
                if strIn searchterm (pyLower s) then Except.ok (s :: out)
                else Except.ok out from by
            simp [searchBodiesLoop, hbody],
          ih hbr, List.filterMap_cons, hbs]
        by_cases hm : strIn searchterm (pyLower s) = true
        · rw [List.filter_cons]
          simp [hm]
        · rw [List.filter_cons]
          simp [hm]

/-- C8 (amended).  `search_user_comments` lowercases only the *body*, not
the term: over the events selected by the comment scan for the given user
(assuming each such event carries a string body — otherwise `.lower()`
raises), it returns exactly the bodies whose lowercased text contains the
term verbatim.  A term containing an uppercase letter can thus never match,
so the match is case-insensitive in the body only. -/
theorem search_user_comments_lower_body_only (u term : String) (h : List Event)
    (hb : ∀ e ∈ find_events_by_actor "commented" (ActorArg.str u) 999 h,
      (bodyStr e).isSome = true) :
    search_user_comments u term h =
      Except.ok
        (((find_events_by_actor "commented" (ActorArg.str u) 999 h).filterMap
            bodyStr).filter (fun b => strIn term (pyLower b))) := by
  unfold search_user_comments
  exact searchBodiesLoop_eq term _ hb

/-- Witness for C8 (amended). -/
theorem search_user_comments_lower_body_only_witness :
    (∀ e ∈ find_events_by_actor "commented" (ActorArg.str "u") 999
        [({ event := "commented", actor := "u", created_at := CreatedAt.dt 1 true,
            body := some (some "HIGH tide") } : Event)],
        (bodyStr e).isSome = true) ∧
    search_user_comments "u" "high"
      [{ event := "commented", actor := "u", created_at := CreatedAt.dt 1 true,
         body := some (some "HIGH tide") }] =
      Except.ok
        (((find_events_by_actor "commented" (ActorArg.str "u") 999
            [{ event := "commented", actor := "u", created_at := CreatedAt.dt 1 true,
               body := some (some "HIGH tide") }]).filterMap bodyStr).filter
          (fun b => strIn "high" (pyLower b))) :=
  ⟨by decide, search_user_comments_lower_body_only "u" "high" _ (by decide)⟩

/-! ## C9: last_comment -/

/-- An event with a *truthy* string body (Python: non-empty string). -/
def truthyBody (e : Event) : Bool :=
  match e.body with
  | some (some s) => !(s == "")
  | _ => false

lemma getLast?_filter_eq_find?_reverse {α : Type} (p : α → Bool) :
    ∀ l : List α, (l.filter p).getLast? = l.reverse.find? p := by
  intro l
  induction l with
  | nil => rfl
  | cons a l ih =>
    rw [List.reverse_cons, List.find?_append, List.filter_cons]
    by_cases hp : p a = true
    · rw [if_pos hp, List.getLast?_cons, ih]
      cases hf : l.reverse.find? p with
      | none => simp [List.find?_cons, hp]
      | some x => simp
    · rw [if_neg (by simp [hp]), ih]
      simp [List.find?_cons, hp]

lemma lastCommentLoop_eq (u : UserArg) : ∀ l : List Event,
    (∀ e ∈ l, (e.event == "commented" && userSelects u e.actor) = true →
      truthyBody e = true) →
    lastCommentLoop u none l =
      Except.ok
        ((l.find? (fun e => e.event == "commented" && userSelects u e.actor)).bind
          bodyStr) := by
  intro l
  induction l with
  | nil => intro _; rfl
  | cons e rest ih =>
    intro hb
    have hbr : ∀ x ∈ rest,
        (x.event == "commented" && userSelects u x.actor) = true →
          truthyBody x = true :=
      fun x hx => hb x (List.mem_cons_of_mem e hx)
    by_cases hm : (e.event == "commented" && userSelects u e.actor) = true
    · have htr := hb e (List.mem_cons_self e rest) hm
      cases hbody : e.body with
      | none => rw [truthyBody, hbody] at htr; simp at htr
      | some v =>
        cases v with
        | none => rw [truthyBody, hbody] at htr; simp at htr
        | some s =>
          rw [truthyBody, hbody] at htr
          have hs : truthyOpt (some s) = true := by simpa [truthyOpt] using htr
          rw [show lastCommentLoop u none (e :: rest) = Except.ok (some s) by
              simp [lastCommentLoop, hm, hbody, hs],
            List.find?_cons, hm]
          simp [bodyStr, hbody]
    · have hmf : (e.event == "commented" && userSelects u e.actor) = false := by
        simpa using hm
      rw [show lastCommentLoop u none (e :: rest) = lastCommentLoop u none rest by
          simp [lastCommentLoop, hm, truthyOpt],
        ih hbr, List.find?_cons, hmf]

/-- C9 counterexample.  The scan breaks only on a *truthy* body
(`if last_comment: break`): with two comments by `"u"`, the chronologically
last one having the empty body `""`, `last_comment` skips it and returns the
earlier `"hello"` — not the body of the chronologically last comment, as the
claim states. -/
theorem last_comment_falsy_body_counterexample :
    last_comment (UserArg.str "u")
      [{ event := "commented", actor := "u", created_at := CreatedAt.dt 1 true,
         body := some (some "hello") },
       { event := "commented", actor := "u", created_at := CreatedAt.dt 2 true,
         body := some (some "") }] = Except.ok (some "hello") ∧
    (([{ event := "commented", actor := "u", created_at := CreatedAt.dt 1 true,
         body := some (some "hello") },
       { event := "commented", actor := "u", created_at := CreatedAt.dt 2 true,
         body := some (some "") }] : List Event).filter
        (fun e => e.event == "commented" &&
          userSelects (UserArg.str "u") e.actor)).getLast? =
      some { event := "commented", actor := "u", created_at := CreatedAt.dt 2 true,
             body := some (some "") } :=
  ⟨rfl, by decide⟩

/-- C9 (amended).  For any actor filter and any timeline in which every
comment event by that actor carries a non-empty (truthy) string body,
`last_comment` returns the body of the chronologically last comment by that
actor (the reverse scan stops at the first match), and returns `None` when
the actor never commented.  (The counterexample shows that a falsy body —
empty or `None` — is skipped over instead of being returned.) -/
theorem last_comment_last_truthy (u : UserArg) (h : List Event)
    (hb : ∀ e ∈ h, (e.event == "commented" && userSelects u e.actor) = true →
      truthyBody e = true) :
    last_comment u h =
      Except.ok
        (((h.filter
            (fun e => e.event == "commented" && userSelects u e.actor)).getLast?).bind
          bodyStr) := by
  unfold last_comment
  rw [lastCommentLoop_eq u h.reverse
      (fun e he hm => hb e (List.mem_reverse.mp he) hm),
    getLast?_filter_eq_find?_reverse]

/-- Witness for C9 (amended). -/
theorem last_comment_last_truthy_witness :
    (∀ e ∈ ([{ event := "commented", actor := "u",
               created_at := CreatedAt.dt 1 true, body := some (some "first") },
             { event := "commented", actor := "u",
               created_at := CreatedAt.dt 2 true,
               body := some (some "second") }] : List Event),
        (e.event == "commented" && userSelects (UserArg.str "u") e.actor) = true →
          truthyBody e = true) ∧
    last_comment (UserArg.str "u")
      [{ event := "commented", actor := "u", created_at := CreatedAt.dt 1 true,
         body := some (some "first") },
       { event := "commented", actor := "u", created_at := CreatedAt.dt 2 true,
         body := some (some "second") }] =
      Except.ok
        ((([{ event := "commented", actor := "u",
              created_at := CreatedAt.dt 1 true, body := some (some "first") },
            { event := "commented", actor := "u",
              created_at := CreatedAt.dt 2 true,
              body := some (some "second") }] : List Event).filter
            (fun e => e.event == "commented" &&
              userSelects (UserArg.str "u") e.actor)).getLast?.bind bodyStr) :=
  ⟨by decide, last_comment_last_truthy (UserArg.str "u") _ (by decide)⟩

/-! ## C10: get_boilerplate_comments -/

lemma bpLoop_ok_iff (dates content : Bool) : ∀ l : List Event,
    exOk (bpLoop dates content l) = l.all (fun e => !badBoilerplate e) := by
  intro l
  induction l with
  | nil => rfl
  | cons e rest ih =>
    cases hbody : e.body with
    | none =>
      have hbad : badBoilerplate e = false := by simp [badBoilerplate, hbody]
      rw [show bpLoop dates content (e :: rest) = bpLoop dates content rest by
          simp [bpLoop, hbody],
        ih, List.all_cons, hbad]
      simp
    | some v =>
      cases v with
      | none =>
        have hbad : badBoilerplate e = false := by simp [badBoilerplate, hbody]
        rw [show bpLoop dates content (e :: rest) = bpLoop dates content rest by
            simp [bpLoop, hbody],
          ih, List.all_cons, hbad]
        simp
      | some b =>
        by_cases hne : b = ""
        · have hbad : badBoilerplate e = false := by
            simp [badBoilerplate, hbody, hne]
          rw [show bpLoop dates content (e :: rest) = bpLoop dates content rest by
              simp [bpLoop, hbody, hne],
            ih, List.all_cons, hbad]
          simp
        · have hbne : (b == "") = false := by simpa using hne
          by_cases hmk : strIn bpMarker b = true
          · cases hx : bpExtract b with
            | none =>
              have hbad : badBoilerplate e = true := by
                simp [badBoilerplate, hbody, hbne, hmk, hx]
              rw [show bpLoop dates content (e :: rest) = Except.error () by
                  simp [bpLoop, hbody, hbne, hmk, hx],
                List.all_cons, hbad]
              rfl
            | some name =>
              have hbad : badBoilerplate e = false := by
                simp [badBoilerplate, hbody, hbne, hmk, hx]
              rw [List.all_cons, hbad, ← ih]
              cases hrec : bpLoop dates content rest with
              | error u =>
                rw [show bpLoop dates content (e :: rest) = Except.error u by
                    simp [bpLoop, hbody, hbne, hmk, hx, hrec]]
                rfl
              | ok out =>
                rw [show bpLoop dates content (e :: rest) =
                    Except.ok ({ date := if dates then some e.created_at else none
                                 bp := name
                                 body := if content then some b else none } :: out) by
                    simp [bpLoop, hbody, hbne, hmk, hx, hrec]]
                rfl
          · have hmkf : strIn bpMarker b = false := by simpa using hmk
            have hbad : badBoilerplate e = false := by
              simp [badBoilerplate, hbody, hbne, hmkf]
            rw [show bpLoop dates content (e :: rest) = bpLoop dates content rest by
                simp [bpLoop, hbody, hbne, hmkf],
              ih, List.all_cons, hbad]
            simp

/-- C10.  The boilerplate scan returns a result iff no scanned bot
comment is *bad*: a bad comment has a truthy string body containing
`'boilerplate:'` whose first non-blank marker line has fewer than three
whitespace-delimited tokens (`bpExtract` hits the `lines[0].split()[2]`
out-of-range index, modelled `Option`-valued); on any timeline containing
such a comment the operation fails instead of returning a value. -/
theorem boilerplate_ok_iff (dates content : Bool) (botNames : List String)
    (h : List Event) :
    exOk (get_boilerplate_comments dates content botNames h) = true ↔
      ∀ e ∈ find_events_by_actor "commented" (ActorArg.list botNames) 999 h,
        badBoilerplate e = false := by
  unfold get_boilerplate_comments
  rw [bpLoop_ok_iff, List.all_eq_true]
  constructor
  · intro hx e he
    simpa using hx e he
  · intro hx e he
    simpa using hx e he
